import Mathlib

/-!
Verification of the `share_drive` crate (`src/shared_drive/src/`): a shallow
embedding of its authenticator, pagination, upload-strategy, chunked-upload,
download-progress and progress-math code, with theorems checking the
natural-language specification against that embedding.

Machine integers (`u64`, `u16`, `usize`) are modelled as `Nat`; none of the
modelled arithmetic can overflow in the source (sizes and statuses are far
below 2^64 and the code only adds byte counts bounded by the file size, which
a `u64` holds by construction).  `f64` quantities (speeds, percentages, ETAs)
are modelled exactly as rationals `ℚ`; the claims under check only concern the
branch structure and the exact arithmetic expressions, not rounding.
Effectful loops are modelled by explicit state passing with the network
modelled as an oracle (a function from request index to response), and traces
of the requests and progress notifications the code would emit.
-/

namespace ShareDrive

/-- `client.rs` line 26: threshold for resumable upload (50 MB). -/
def RESUMABLE_THRESHOLD : Nat := 50 * 1024 * 1024

/-- `client.rs` line 30: chunk size for resumable uploads (8 MB). -/
def CHUNK_SIZE : Nat := 8 * 1024 * 1024

/-- `reqwest::StatusCode::is_success`: true exactly for 2xx statuses. -/
def isSuccessStatus (s : Nat) : Bool := 200 ≤ s && s < 300

/-- `models.rs` `FileMetadata` (string `size` is parsed to an integer,
hence `Option Nat` here, mirroring `Option<u64>`). -/
structure FileMetadata where
  id : String
  name : String
  mime_type : Option String
  web_view_link : Option String
  size : Option Nat
  deriving DecidableEq

/-- `error.rs` `DriveError`, restricted to the variants reachable from the
modelled code paths.  `ParseError` stands for a failed
`response.json().await?` deserialization. -/
inductive DriveError where
  | ApiError (status : Nat) (message : String)
  | TokenRefreshError (message : String)
  | ParseError
  deriving DecidableEq

/-- `client.rs` lines 33-41: `TransferProgress`. -/
structure TransferProgress where
  bytes_transferred : Nat
  total_bytes : Nat
  bytes_per_second : ℚ
  deriving DecidableEq

/-- `client.rs` lines 46-52: `TransferProgress::eta_seconds`.
`saturating_sub` on `u64` is truncated subtraction on `Nat`. -/
def eta_seconds (p : TransferProgress) : Option ℚ :=
  if p.bytes_per_second ≤ 0 then none
  else some (((p.total_bytes - p.bytes_transferred : Nat) : ℚ) / p.bytes_per_second)

/-- `client.rs` lines 55-60: `TransferProgress::percent`. -/
def percent (p : TransferProgress) : ℚ :=
  if p.total_bytes = 0 then 100
  else ((p.bytes_transferred : ℚ) / (p.total_bytes : ℚ)) * 100

/-- C9: percent is 100 when total bytes is zero and bytes/total×100 otherwise;
ETA is `none` whenever the throughput is zero or negative, and
remaining-bytes (saturating) divided by throughput otherwise. -/
theorem C9_progress_math (p : TransferProgress) :
    (p.total_bytes = 0 → percent p = 100) ∧
    (p.total_bytes ≠ 0 →
      percent p = ((p.bytes_transferred : ℚ) / (p.total_bytes : ℚ)) * 100) ∧
    (p.bytes_per_second ≤ 0 → eta_seconds p = none) ∧
    (0 < p.bytes_per_second →
      eta_seconds p =
        some (((p.total_bytes - p.bytes_transferred : Nat) : ℚ) / p.bytes_per_second)) := by
  refine ⟨fun h => ?_, fun h => ?_, fun h => ?_, fun h => ?_⟩
  · simp [percent, h]
  · simp [percent, h]
  · simp [eta_seconds, h]
  · simp [eta_seconds, not_le.mpr h]

/-- Witness for C9 at concrete inputs: a zero-total transfer with negative
speed (degenerate cases) and a 2-of-8-bytes transfer at speed 4. -/
theorem C9_progress_math_witness :
    percent ⟨4, 0, -1⟩ = 100 ∧
    eta_seconds ⟨4, 0, -1⟩ = none ∧
    percent ⟨2, 8, 4⟩ = ((2 : ℚ) / (8 : ℚ)) * 100 ∧
    eta_seconds ⟨2, 8, 4⟩ = some ((((8 : Nat) - (2 : Nat) : Nat) : ℚ) / (4 : ℚ)) := by
  refine ⟨(C9_progress_math ⟨4, 0, -1⟩).1 rfl,
          (C9_progress_math ⟨4, 0, -1⟩).2.2.1 (by norm_num),
          ?_, ?_⟩
  · have h := (C9_progress_math ⟨2, 8, 4⟩).2.1 (by norm_num)
    simpa using h
  · have h := (C9_progress_math ⟨2, 8, 4⟩).2.2.2 (by norm_num)
    simpa using h

/-! ## Authenticator (`auth.rs`) -/

/-- `auth.rs` line 17: the fixed Google OAuth2 token endpoint. -/
def TOKEN_URI : String := "https://oauth2.googleapis.com/token"

/-- `auth.rs` line 20: the fixed Drive scope. -/
def DRIVE_SCOPE : String := "https://www.googleapis.com/auth/drive"

/-- `models.rs` lines 139-144: `ServiceAccountCredentials`. -/
structure ServiceAccountCredentials where
  client_email : String
  private_key : String
  token_uri : Option String
  deriving DecidableEq

/-- serde deserialization of `ServiceAccountCredentials` (derived
`Deserialize` in `models.rs`): the two `String` fields are required, the
`Option<String>` field is optional (missing means `None`).  The arguments
are the fields found in the input JSON object. -/
def parse_credentials (client_email private_key token_uri : Option String) :
    Option ServiceAccountCredentials :=
  match client_email, private_key with
  | some e, some k => some ⟨e, k, token_uri⟩
  | _, _ => none

/-- `auth.rs` lines 23-30: JWT claims built for the assertion. -/
structure Claims where
  iss : String
  scope : String
  aud : String
  exp : Nat
  iat : Nat
  deriving DecidableEq

/-- The token-exchange request that `auth.rs` `refresh_token`
(lines 91-121) constructs: the POST target URL, the JWT claims, and the
fixed grant type of the form body. -/
structure TokenExchangeRequest where
  url : String
  claims : Claims
  grant_type : String
  deriving DecidableEq

/-- `auth.rs` `refresh_token`, request-construction part (lines 92-121):
the claims use the constant `TOKEN_URI` as audience and the POST goes to
the constant `TOKEN_URI`; `credentials.token_uri` is never consulted.
`now` is the Unix time sampled at line 92. -/
def refresh_token_request (creds : ServiceAccountCredentials) (now : Nat) :
    TokenExchangeRequest :=
  { url := TOKEN_URI
    claims :=
      { iss := creds.client_email
        scope := DRIVE_SCOPE
        aud := TOKEN_URI
        iat := now
        exp := now + 3600 }
    grant_type := "urn:ietf:params:oauth:grant-type:jwt-bearer" }

/-- `auth.rs` lines 33-37: `CachedToken`.  `SystemTime` is modelled as Unix
seconds (`Nat`). -/
structure CachedToken where
  access_token : String
  expires_at : Nat
  deriving DecidableEq

/-- The outcome of the network exchange in `refresh_token` (lines 116-132):
either a parsed `TokenResponse` (its `access_token` and `expires_in`
fields; `token_type` is unused by the code) or a non-2xx status with body. -/
inductive ExchangeOutcome where
  | success (access_token : String) (expires_in : Nat)
  | failure (status : Nat) (body : String)
  deriving DecidableEq

/-- Result of one `get_access_token` call: the returned value, the cache
contents afterwards, and how many network token exchanges were performed. -/
structure TokenFetchResult where
  result : Except DriveError String
  cache : Option CachedToken
  exchanges : Nat

/-- `auth.rs` `refresh_token` (lines 123-140) followed by the cache write of
`get_access_token` (lines 82-85): one exchange; on success the cache is
replaced wholesale by the new token with `expires_at = now + expires_in`;
on a non-2xx response a `TokenRefreshError` carrying status and body is
returned and the cache is left unchanged. -/
def refresh_and_store (cache : Option CachedToken) (now : Nat)
    (exchange : ExchangeOutcome) : TokenFetchResult :=
  match exchange with
  | .success tok expires_in =>
      ⟨.ok tok, some ⟨tok, now + expires_in⟩, 1⟩
  | .failure status body =>
      ⟨.error (.TokenRefreshError ("Status " ++ toString status ++ ": " ++ body)),
       cache, 1⟩

/-- `auth.rs` `get_access_token` (lines 65-88): return the cached token when
its expiry exceeds `now + 60`; otherwise refresh.  The network is modelled
by the `exchange` oracle; `now` is the sampled current time. -/
def get_access_token (cache : Option CachedToken) (now : Nat)
    (exchange : ExchangeOutcome) : TokenFetchResult :=
  match cache with
  | some t =>
      if now + 60 < t.expires_at then ⟨.ok t.access_token, some t, 0⟩
      else refresh_and_store cache now exchange
  | none => refresh_and_store cache now exchange

/-- C3: the cached token is returned with no exchange iff a cached token is
present whose expiry exceeds now plus the 60-second buffer; a cache hit
returns the cached token and leaves the cache unchanged; otherwise exactly
one exchange happens and, on success, the cache is replaced wholesale by the
new token whose `expires_at` is now plus the response's `expires_in`, and
that new token is returned. -/
theorem C3_token_cache (cache : Option CachedToken) (now : Nat)
    (ex : ExchangeOutcome) :
    ((∃ t, cache = some t ∧ now + 60 < t.expires_at) ↔
      (get_access_token cache now ex).exchanges = 0) ∧
    (∀ t, cache = some t → now + 60 < t.expires_at →
      get_access_token cache now ex = ⟨.ok t.access_token, some t, 0⟩) ∧
    (¬ (∃ t, cache = some t ∧ now + 60 < t.expires_at) →
      (get_access_token cache now ex).exchanges = 1 ∧
      ∀ tok expires_in, ex = .success tok expires_in →
        get_access_token cache now ex =
          ⟨.ok tok, some ⟨tok, now + expires_in⟩, 1⟩) := by
  refine ⟨⟨fun h => ?_, fun h => ?_⟩, fun t ht hfresh => ?_, fun h => ⟨?_, ?_⟩⟩
  · obtain ⟨t, ht, hfresh⟩ := h
    simp [get_access_token, ht, hfresh]
  · by_contra hno
    push_neg at hno
    match hc : cache with
    | none =>
        subst hc
        cases ex <;> simp [get_access_token, refresh_and_store] at h
    | some t =>
        subst hc
        have := hno t rfl
        cases ex <;>
          simp [get_access_token, refresh_and_store, if_neg (not_lt.mpr this)] at h
  · simp [get_access_token, ht, hfresh]
  · push_neg at h
    match hc : cache with
    | none =>
        subst hc
        cases ex <;> simp [get_access_token, refresh_and_store]
    | some t =>
        subst hc
        have := h t rfl
        cases ex <;> simp [get_access_token, refresh_and_store, if_neg (not_lt.mpr this)]
  · intro tok expires_in hex
    subst hex
    push_neg at h
    match hc : cache with
    | none => simp [get_access_token, refresh_and_store]
    | some t =>
        subst hc
        have := h t rfl
        simp [get_access_token, refresh_and_store, if_neg (not_lt.mpr this)]

/-- Witness for C3 at concrete inputs: a fresh cached token (expiry 100,
now 0) is returned with zero exchanges even when the exchange would fail,
and a stale cache (expiry 10, now 0) triggers exactly one successful
exchange that replaces the cache with expiry now + 3600. -/
theorem C3_token_cache_witness :
    get_access_token (some ⟨"cached", 100⟩) 0 (.failure 500 "boom") =
      ⟨.ok "cached", some ⟨"cached", 100⟩, 0⟩ ∧
    get_access_token (some ⟨"stale", 10⟩) 0 (.success "fresh" 3600) =
      ⟨.ok "fresh", some ⟨"fresh", 0 + 3600⟩, 1⟩ := by
  constructor
  · exact (C3_token_cache (some ⟨"cached", 100⟩) 0
      (.failure 500 "boom")).2.1 ⟨"cached", 100⟩ rfl (by decide)
  · exact ((C3_token_cache (some ⟨"stale", 10⟩) 0
      (.success "fresh" 3600)).2.2
      (by rintro ⟨t, ht, hfresh⟩; injection ht with ht; subst ht; simp at hfresh)).2
      "fresh" 3600 rfl

/-- C7 counterexample: credentials carrying a token-endpoint override are not
honoured — the token exchange built by `refresh_token` is still directed at
the constant endpoint, not the overridden one. -/
theorem C7_counterexample :
    (refresh_token_request
        ⟨"svc@example.com", "PEMKEY", some "https://alt.example/token"⟩ 0).url
      ≠ "https://alt.example/token" := by
  decide

/-- C7 amended: only the issuer-identity and private-key fields are required
(the token-endpoint field is optional), but the token exchange always
targets the fixed constant endpoint (as URL and as JWT audience),
ignoring any override in the credentials. -/
theorem C7_token_uri_ignored (creds : ServiceAccountCredentials) (now : Nat)
    (e k t : Option String) :
    (refresh_token_request creds now).url = TOKEN_URI ∧
    (refresh_token_request creds now).claims.aud = TOKEN_URI ∧
    ((parse_credentials e k t).isSome ↔ e.isSome ∧ k.isSome) := by
  refine ⟨rfl, rfl, ?_⟩
  cases e <;> cases k <;> simp [parse_credentials]

/-! ## Pagination (`client.rs` `query_files`) -/

/-- `models.rs` lines 84-91: `FileListResponse`. -/
structure FileListResponse where
  files : List FileMetadata
  next_page_token : Option String
  deriving DecidableEq

/-- `client.rs` `query_files`, lines 110-153: the page loop.  The network is
the oracle `resp`, mapping the index of the request to the (successful)
response; the non-2xx abort path (lines 132-144) is not exercised by this
model.  Arguments after the oracle: remaining fuel, request index, the
`page_token` variable, and the `all_files` accumulator.  The result pairs
the trace of `pageToken` query parameters attached to each issued request
with the accumulated files (`none` if the fuel ran out before a page
without a cursor arrived). -/
def query_files_go (resp : Nat → FileListResponse) :
    Nat → Nat → Option String → List FileMetadata →
    List (Option String) × Option (List FileMetadata)
  | 0, _, _, _ => ([], none)
  | fuel + 1, idx, tok, acc =>
    let page := resp idx
    match page.next_page_token with
    | none => ([tok], some (acc ++ page.files))
    | some t =>
        let r := query_files_go resp fuel (idx + 1) (some t) (acc ++ page.files)
        (tok :: r.1, r.2)

/-- `client.rs` `query_files` entry (lines 105-108): empty accumulator, no
initial page token. -/
def query_files (resp : Nat → FileListResponse) (fuel : Nat) :
    List (Option String) × Option (List FileMetadata) :=
  query_files_go resp fuel 0 none []

/-- Behaviour of the page loop when the `k`-th page seen from `idx` is the
first one without a cursor: every request after the first carries the
previous response's cursor, and the result is the accumulator followed by
all pages' files in response order. -/
theorem query_files_go_spec (resp : Nat → FileListResponse) (k : Nat) :
    ∀ fuel idx tok acc,
      (∀ i, i < k → (resp (idx + i)).next_page_token ≠ none) →
      (resp (idx + k)).next_page_token = none → k < fuel →
      query_files_go resp fuel idx tok acc =
        (tok :: (List.range k).map (fun i => (resp (idx + i)).next_page_token),
         some (acc ++
           ((List.range (k + 1)).map (fun i => (resp (idx + i)).files)).flatten)) := by
  induction k with
  | zero =>
      intro fuel idx tok acc _ hlast hfuel
      match fuel, hfuel with
      | fuel + 1, _ =>
        simp only [query_files_go]
        rw [show idx + 0 = idx from rfl] at hlast
        simp [hlast, show List.range 1 = [0] from rfl]
  | succ k ih =>
      intro fuel idx tok acc hmid hlast hfuel
      match fuel, hfuel with
      | fuel + 1, hfuel =>
        have h0 : (resp idx).next_page_token ≠ none := by
          have := hmid 0 (Nat.succ_pos k)
          simpa using this
        obtain ⟨t, ht⟩ : ∃ t, (resp idx).next_page_token = some t :=
          Option.ne_none_iff_exists'.mp h0
        have hrec := ih fuel (idx + 1) (some t) (acc ++ (resp idx).files)
          (fun i hi => by
            have := hmid (i + 1) (Nat.succ_lt_succ hi)
            simpa [Nat.add_comm i 1, Nat.add_assoc] using this)
          (by
            have h1 : idx + 1 + k = idx + (k + 1) := by omega
            rw [h1]; exact hlast)
          (Nat.lt_of_succ_lt_succ hfuel)
        simp only [query_files_go, ht, hrec, Prod.mk.injEq]
        refine ⟨?_, ?_⟩
        · rw [List.range_succ_eq_map, List.map_cons, List.map_map]
          simp only [Nat.add_zero, Function.comp_def, ht]
          refine congrArg (tok :: ·) (congrArg (some t :: ·) ?_)
          refine List.map_congr_left ?_
          intro i _
          have h1 : idx + 1 + i = idx + (i + 1) := by omega
          rw [h1]
        · rw [List.range_succ_eq_map (k + 1), List.map_cons, List.map_map,
            List.flatten_cons]
          simp only [Nat.add_zero, Function.comp_def, List.append_assoc]
          refine congrArg Option.some ?_
          refine congrArg (acc ++ ·) (congrArg ((resp idx).files ++ ·) ?_)
          refine congrArg List.flatten ?_
          refine List.map_congr_left ?_
          intro i _
          have h1 : idx + 1 + i = idx + (i + 1) := by omega
          rw [h1]

/-- C4: when pages `0..k-1` each carry a cursor and page `k` carries none,
`query_files` issues exactly `k+1` requests — the first with no `pageToken`,
each later one carrying the cursor from the previous response — and returns
the concatenation, in response order, of the `files` arrays of all pages. -/
theorem C4_pagination (resp : Nat → FileListResponse) (k fuel : Nat)
    (hmid : ∀ i, i < k → (resp i).next_page_token ≠ none)
    (hlast : (resp k).next_page_token = none)
    (hfuel : k < fuel) :
    query_files resp fuel =
      (none :: (List.range k).map (fun i => (resp i).next_page_token),
       some ((List.range (k + 1)).map (fun i => (resp i).files)).flatten) := by
  have h := query_files_go_spec resp k fuel 0 none []
    (fun i hi => by simpa using hmid i hi)
    (by simpa using hlast) hfuel
  simpa [query_files] using h

/-- Witness for C4: a concrete two-page drive (one file per page, cursor
`t1` on the first page) accumulates both files in order and issues two
requests, the second carrying `t1`. -/
theorem C4_pagination_witness :
    query_files
      (fun i =>
        if i = 0 then ⟨[⟨"a", "a.txt", none, none, some 1⟩], some "t1"⟩
        else ⟨[⟨"b", "b.txt", none, none, some 2⟩], none⟩) 2 =
      (none :: (List.range 1).map (fun i =>
        ((fun j =>
          if j = 0 then
            (⟨[⟨"a", "a.txt", none, none, some 1⟩], some "t1"⟩ : FileListResponse)
          else ⟨[⟨"b", "b.txt", none, none, some 2⟩], none⟩) i).next_page_token),
       some ((List.range 2).map (fun i =>
        ((fun j =>
          if j = 0 then
            (⟨[⟨"a", "a.txt", none, none, some 1⟩], some "t1"⟩ : FileListResponse)
          else ⟨[⟨"b", "b.txt", none, none, some 2⟩], none⟩) i).files)).flatten) :=
  C4_pagination
    (fun i =>
      if i = 0 then ⟨[⟨"a", "a.txt", none, none, some 1⟩], some "t1"⟩
      else ⟨[⟨"b", "b.txt", none, none, some 2⟩], none⟩) 1 2
    (by decide) (by decide) (by decide)

/-! ## `find_file` (`client.rs` lines 159-167) -/

/-- The single-quote character. -/
def quoteChar : Char := Char.ofNat 39

/-- The backslash character. -/
def backslashChar : Char := Char.ofNat 92

/-- Single-quote as a one-character string. -/
def sq : String := String.mk [quoteChar]

/-- Rust `str::replace('\x27', "\x5c\x27")` on the character list: each
single quote is replaced by backslash-quote; all other characters (including
backslashes) pass through unchanged. -/
def escapeChars : List Char → List Char
  | [] => []
  | c :: cs =>
      if c = quoteChar then backslashChar :: quoteChar :: escapeChars cs
      else c :: escapeChars cs

/-- `client.rs` line 162: `name.replace('\x27', "\x5c\x27")`. -/
def escape_name (s : String) : String := String.mk (escapeChars s.data)

/-- `client.rs` lines 160-164: the query string `find_file` builds,
`name = '<escaped name>' and '<parent>' in parents and trashed = false`. -/
def find_file_query (name parent : String) : String :=
  "name = " ++ sq ++ escape_name name ++ sq ++ " and " ++ sq ++ parent ++ sq
    ++ " in parents and trashed = false"

/-- The part of the built query that follows the quoted name. -/
def query_tail (parent : String) : String :=
  " and " ++ sq ++ parent ++ sq ++ " in parents and trashed = false"

/-- `client.rs` line 166: `files.into_iter().last()` applied to the query
result — `find_file` keeps the last element of the result sequence. -/
def find_file_result (files : List FileMetadata) : Option FileMetadata :=
  files.getLast?

/-- Lexer for a single-quoted literal in the provider's query language,
starting just after the opening quote.  Modelled from the quoting
convention that `find_file`'s escaping targets (this consumer is external
to the repository): a backslash escapes the following character, an
unescaped single quote closes the literal.  Returns the literal's
characters and the remainder after the closing quote, or `none` if the
literal never closes. -/
def lexQuoted : List Char → Option (List Char × List Char)
  | [] => none
  | [c] => if c = quoteChar then some ([], []) else none
  | c :: d :: rest =>
      if c = backslashChar then
        (lexQuoted rest).map (fun p => (d :: p.1, p.2))
      else if c = quoteChar then some ([], d :: rest)
      else (lexQuoted (d :: rest)).map (fun p => (c :: p.1, p.2))

/-- Unfolding: a non-backslash, non-quote head character is consumed into
the literal. -/
theorem lexQuoted_cons_other (c : Char) (l : List Char)
    (h1 : c ≠ backslashChar) (h2 : c ≠ quoteChar) :
    lexQuoted (c :: l) = (lexQuoted l).map (fun p => (c :: p.1, p.2)) := by
  match l with
  | [] => simp [lexQuoted, h1, h2]
  | d :: rest => simp [lexQuoted, h1, h2]

/-- Unfolding: a backslash escapes the next character into the literal. -/
theorem lexQuoted_cons_esc (d : Char) (rest : List Char) :
    lexQuoted (backslashChar :: d :: rest) =
      (lexQuoted rest).map (fun p => (d :: p.1, p.2)) := by
  simp [lexQuoted]

/-- Unfolding: an unescaped quote closes the literal. -/
theorem lexQuoted_cons_quote (l : List Char) :
    lexQuoted (quoteChar :: l) = some ([], l) := by
  match l with
  | [] => simp [lexQuoted]
  | d :: rest =>
      have h : quoteChar ≠ backslashChar := by decide
      simp [lexQuoted, h]

/-- For a backslash-free name, the escaped name followed by a closing quote
lexes back to exactly the name with exactly the intended remainder. -/
theorem lexQuoted_escape (cs : List Char) (tail : List Char)
    (h : backslashChar ∉ cs) :
    lexQuoted (escapeChars cs ++ quoteChar :: tail) = some (cs, tail) := by
  induction cs with
  | nil => simpa [escapeChars] using lexQuoted_cons_quote tail
  | cons c cs ih =>
      have hc : c ≠ backslashChar := fun hc => h (hc ▸ List.mem_cons_self c cs)
      have htl : backslashChar ∉ cs := fun hm => h (List.mem_cons_of_mem c hm)
      by_cases hq : c = quoteChar
      · subst hq
        have he : escapeChars (quoteChar :: cs) =
            backslashChar :: quoteChar :: escapeChars cs := by
          simp [escapeChars]
        rw [he, List.cons_append, List.cons_append, lexQuoted_cons_esc, ih htl]
        rfl
      · have he : escapeChars (c :: cs) = c :: escapeChars cs := by
          simp [escapeChars, hq]
        rw [he, List.cons_append, lexQuoted_cons_other c _ hc hq, ih htl]
        rfl

/-- C8: `find_file` yields `none` on an empty query result and otherwise the
last element of the query result sequence. -/
theorem C8_find_last (l : List FileMetadata) (x : FileMetadata) :
    find_file_result [] = none ∧ find_file_result (l ++ [x]) = some x := by
  refine ⟨rfl, ?_⟩
  simp [find_file_result]

/-- C10 counterexample: the two-character name backslash-quote contains a
single quote, yet the predicate `find_file` builds for it does not lex back
to that name with the expected remainder — the literal closes early,
leaving a stray quote, so the structure of the predicate changes. -/
theorem C10_counterexample :
    quoteChar ∈ (String.mk [backslashChar, quoteChar]).data ∧
    lexQuoted (escapeChars (String.mk [backslashChar, quoteChar]).data
        ++ quoteChar :: (query_tail "p").data) ≠
      some ((String.mk [backslashChar, quoteChar]).data, (query_tail "p").data) := by
  constructor
  · decide
  · decide

/-- C10 amended: the built predicate escapes each single quote of the name by
replacing it with backslash-quote, and — provided the name contains no
backslash — the embedded literal lexes back to exactly the name, with the
remainder of the predicate exactly the fixed tail, so such a name cannot
change the structure of the predicate.  (A name containing backslashes can
still change it: see the counterexample.) -/
theorem C10_escape (name parent : String) (h : backslashChar ∉ name.data) :
    escapeChars name.data =
      name.data.flatMap
        (fun c => if c = quoteChar then [backslashChar, quoteChar] else [c]) ∧
    (find_file_query name parent).data =
      ("name = ").data ++ quoteChar ::
        (escapeChars name.data ++ quoteChar :: (query_tail parent).data) ∧
    lexQuoted (escapeChars name.data ++ quoteChar :: (query_tail parent).data) =
      some (name.data, (query_tail parent).data) := by
  refine ⟨?_, ?_, lexQuoted_escape name.data (query_tail parent).data h⟩
  · induction name.data with
    | nil => rfl
    | cons c cs ih =>
        by_cases hq : c = quoteChar
        · simp [escapeChars, hq, ih]
        · simp [escapeChars, hq, ih]
  · simp only [find_file_query, query_tail, escape_name, sq, String.data_append]
    simp [String.mk]

/-- Witness for C10 at a concrete input: a name with an interior quote and
no backslash round-trips through the built predicate. -/
theorem C10_escape_witness :
    escapeChars (String.mk [Char.ofNat 97, quoteChar, Char.ofNat 98]).data =
      (String.mk [Char.ofNat 97, quoteChar, Char.ofNat 98]).data.flatMap
        (fun c => if c = quoteChar then [backslashChar, quoteChar] else [c]) ∧
    (find_file_query (String.mk [Char.ofNat 97, quoteChar, Char.ofNat 98]) "p").data =
      ("name = ").data ++ quoteChar ::
        (escapeChars (String.mk [Char.ofNat 97, quoteChar, Char.ofNat 98]).data
          ++ quoteChar :: (query_tail "p").data) ∧
    lexQuoted (escapeChars (String.mk [Char.ofNat 97, quoteChar, Char.ofNat 98]).data
        ++ quoteChar :: (query_tail "p").data) =
      some ((String.mk [Char.ofNat 97, quoteChar, Char.ofNat 98]).data,
        (query_tail "p").data) :=
  C10_escape (String.mk [Char.ofNat 97, quoteChar, Char.ofNat 98]) "p" (by decide)

/-! ## Upload strategy (`client.rs` `upload_file_with_progress`,
`delete_file`) -/

/-- `client.rs` lines 204-225, `delete_file` status handling: a non-2xx
status other than 404 is an `ApiError` with that status and the raw body;
2xx and 404 both succeed. -/
def delete_file_status (status : Nat) (body : String) : Except DriveError Unit :=
  if isSuccessStatus status = false ∧ status ≠ 404 then
    .error (.ApiError status body)
  else .ok ()

/-- The observable steps of `upload_file_with_progress`. -/
inductive UploadAction where
  | delete (id : String)
  | multipart
  | resumable
  deriving DecidableEq

/-- `client.rs` lines 279-285: size classification — strictly above the
threshold goes resumable, otherwise multipart. -/
def upload_method (file_size : Nat) : UploadAction :=
  if RESUMABLE_THRESHOLD < file_size then .resumable else .multipart

/-- `client.rs` lines 256-286, `upload_file_with_progress` as the sequence
of remote actions it performs: `existing` is the result of the
`find_file(filename, parent_id)` lookup (line 264); if a file was found it
is deleted first (line 265); then the upload path is chosen from the local
file's byte length. -/
def upload_plan (existing : Option FileMetadata) (file_size : Nat) :
    List UploadAction :=
  (match existing with
   | some m => [UploadAction.delete m.id]
   | none => []) ++ [upload_method file_size]

/-- C5: when the lookup finds an existing file, the plan deletes it before
uploading (and a 404 on that delete is success, not an error); when it finds
none, no delete happens; sizes at most the 50 MB threshold take the
single-shot multipart path and sizes strictly greater take the
chunked-resumable path. -/
theorem C5_overwrite_and_classify (existing : Option FileMetadata)
    (size : Nat) (m : FileMetadata) (body : String) :
    (existing = some m →
      upload_plan existing size = [UploadAction.delete m.id, upload_method size]) ∧
    (existing = none → upload_plan existing size = [upload_method size]) ∧
    (size ≤ RESUMABLE_THRESHOLD → upload_method size = .multipart) ∧
    (RESUMABLE_THRESHOLD < size → upload_method size = .resumable) ∧
    delete_file_status 404 body = .ok () := by
  refine ⟨fun h => ?_, fun h => ?_, fun h => ?_, fun h => ?_, ?_⟩
  · subst h; rfl
  · subst h; rfl
  · simp [upload_method, not_lt.mpr h]
  · simp [upload_method, h]
  · simp [delete_file_status]

/-- Witness for C5 at concrete inputs: an existing file `old` is deleted
before uploading, a 10 MB file is classified multipart, a 100 MB file
resumable, and a delete answered 404 succeeds. -/
theorem C5_overwrite_and_classify_witness :
    upload_plan (some ⟨"old", "report.txt", none, none, some 1⟩) (10 * 1024 * 1024) =
      [UploadAction.delete "old", upload_method (10 * 1024 * 1024)] ∧
    upload_plan none (10 * 1024 * 1024) = [upload_method (10 * 1024 * 1024)] ∧
    upload_method (10 * 1024 * 1024) = .multipart ∧
    upload_method (100 * 1024 * 1024) = .resumable ∧
    delete_file_status 404 "not found" = .ok () := by
  refine ⟨?_, ?_, ?_, ?_, ?_⟩
  · exact (C5_overwrite_and_classify
      (some ⟨"old", "report.txt", none, none, some 1⟩) (10 * 1024 * 1024)
      ⟨"old", "report.txt", none, none, some 1⟩ "not found").1 rfl
  · exact (C5_overwrite_and_classify none (10 * 1024 * 1024)
      ⟨"old", "report.txt", none, none, some 1⟩ "not found").2.1 rfl
  · exact (C5_overwrite_and_classify none (10 * 1024 * 1024)
      ⟨"old", "report.txt", none, none, some 1⟩ "not found").2.2.1 (by decide)
  · exact (C5_overwrite_and_classify none (100 * 1024 * 1024)
      ⟨"old", "report.txt", none, none, some 1⟩ "not found").2.2.2.1 (by decide)
  · exact (C5_overwrite_and_classify none 0
      ⟨"old", "report.txt", none, none, some 1⟩ "not found").2.2.2.2

/-! ## Chunked resumable upload (`client.rs` `upload_resumable`) -/

/-- The sizes of the successive reads the chunk loop performs
(`client.rs` lines 424-433): each `file.read` into the 8 MB buffer returns
`min C remaining` bytes, and the loop breaks on a zero-length read.  `fuel`
is a structural bound on the number of reads; `fuel = remaining` always
suffices because every counted read consumes at least one byte. -/
def read_chunk_sizes (C : Nat) : Nat → Nat → List Nat
  | 0, _ => []
  | fuel + 1, remaining =>
      let r := min C remaining
      if r = 0 then [] else r :: read_chunk_sizes C fuel (remaining - r)

/-- Pairs each chunk size with its start offset (the `bytes_uploaded`
counter at the moment the chunk is read, `client.rs` lines 420, 436). -/
def with_starts (start : Nat) : List Nat → List (Nat × Nat)
  | [] => []
  | n :: ns => (start, n) :: with_starts (start + n) ns

/-- The `(bytes_uploaded, bytes_read)` pairs of the successive chunks of a
file of `S` bytes read with the fixed 8 MB chunk size. -/
def read_chunks (S : Nat) : List (Nat × Nat) :=
  with_starts 0 (read_chunk_sizes CHUNK_SIZE S S)

/-- `client.rs` line 437: the Content-Range header value
`bytes <start>-<end>/<total>`. -/
def content_range_header (start endPos total : Nat) : String :=
  "bytes " ++ toString start ++ "-" ++ toString endPos ++ "/" ++ toString total

/-- The `(start, end)` bounds of the Content-Range header of each chunk:
`chunk_end = bytes_uploaded + bytes_read - 1` (`client.rs` line 436). -/
def chunk_ranges (S : Nat) : List (Nat × Nat) :=
  (read_chunks S).map (fun p => (p.1, p.1 + p.2 - 1))

/-- The Content-Range header values of the successive chunk PUTs. -/
def chunk_headers (S : Nat) : List String :=
  (chunk_ranges S).map (fun p => content_range_header p.1 p.2 S)

/-- The chunk sizes sum to the whole file. -/
theorem read_chunk_sizes_sum (C : Nat) (hC : 0 < C) :
    ∀ fuel remaining, remaining ≤ fuel →
      (read_chunk_sizes C fuel remaining).sum = remaining := by
  intro fuel
  induction fuel with
  | zero =>
      intro remaining h
      match remaining, Nat.le_zero.mp h with
      | 0, _ => rfl
  | succ fuel ih =>
      intro remaining h
      simp only [read_chunk_sizes]
      by_cases hr : min C remaining = 0
      · have : remaining = 0 := by omega
        simp [hr, this]
      · have h1 : 1 ≤ min C remaining := Nat.one_le_iff_ne_zero.mpr hr
        have h2 : min C remaining ≤ remaining := Nat.min_le_right C remaining
        rw [if_neg hr, List.sum_cons, ih (remaining - min C remaining) (by omega)]
        omega

/-- Every chunk size is positive. -/
theorem read_chunk_sizes_pos (C : Nat) :
    ∀ fuel remaining n, n ∈ read_chunk_sizes C fuel remaining → 0 < n := by
  intro fuel
  induction fuel with
  | zero => intro remaining n h; simp [read_chunk_sizes] at h
  | succ fuel ih =>
      intro remaining n h
      simp only [read_chunk_sizes] at h
      by_cases hr : min C remaining = 0
      · simp [hr] at h
      · rw [if_neg hr] at h
        rcases List.mem_cons.mp h with h | h
        · subst h; exact Nat.pos_of_ne_zero hr
        · exact ih _ n h

/-- A positive file produces at least one chunk. -/
theorem read_chunk_sizes_ne_nil (C : Nat) (hC : 0 < C) :
    ∀ fuel remaining, 0 < remaining → remaining ≤ fuel →
      read_chunk_sizes C fuel remaining ≠ [] := by
  intro fuel remaining hpos hle
  match fuel, Nat.lt_of_lt_of_le hpos hle with
  | fuel + 1, _ =>
    intro hcontra
    simp only [read_chunk_sizes] at hcontra
    split at hcontra
    · omega
    · exact List.cons_ne_nil _ _ hcontra

/-- Consecutive chunks are contiguous: each next start is the previous
start plus the previous size. -/
theorem with_starts_chain (ns : List Nat) :
    ∀ a, List.Chain' (fun p q : Nat × Nat => q.1 = p.1 + p.2) (with_starts a ns) := by
  induction ns with
  | nil => intro a; simp [with_starts]
  | cons n ns ih =>
      intro a
      match ns with
      | [] => simp [with_starts]
      | m :: ns2 =>
        refine List.chain'_cons.mpr ⟨rfl, ih (a + n)⟩

/-- The last chunk ends exactly at `start + sum of sizes`. -/
theorem with_starts_last (ns : List Nat) :
    ∀ a, ns ≠ [] →
      ∃ p, (with_starts a ns).getLast? = some p ∧ p.1 + p.2 = a + ns.sum := by
  induction ns with
  | nil => intro a h; exact absurd rfl h
  | cons n ns ih =>
      intro a _
      cases ns with
      | nil => exact ⟨(a, n), rfl, by simp [with_starts]⟩
      | cons m ns2 =>
        obtain ⟨p, hp, hsum⟩ := ih (a + n) (by simp)
        refine ⟨p, ?_, ?_⟩
        · show ((a, n) :: (a + n, m) :: with_starts (a + n + m) ns2).getLast? = some p
          rw [List.getLast?_cons_cons]
          exact hp
        · rw [hsum]
          simp only [List.sum_cons]
          omega

/-- Contiguity in Content-Range form: when all sizes are positive, each next
range starts one past the previous range's end. -/
theorem with_starts_ranges_chain (ns : List Nat) :
    ∀ a, (∀ n ∈ ns, 0 < n) →
      List.Chain' (fun p q : Nat × Nat => q.1 = p.1 + p.2 - 1 + 1)
        (with_starts a ns) := by
  induction ns with
  | nil => intro a _; simp [with_starts]
  | cons n ns ih =>
      intro a hpos
      have hn : 0 < n := hpos n (List.mem_cons_self n ns)
      have htl : ∀ m ∈ ns, 0 < m := fun m hm => hpos m (List.mem_cons_of_mem n hm)
      cases ns with
      | nil => simp [with_starts]
      | cons m ns2 =>
          show List.Chain' (fun p q : Nat × Nat => q.1 = p.1 + p.2 - 1 + 1)
            ((a, n) :: (a + n, m) :: with_starts (a + n + m) ns2)
          refine List.chain'_cons.mpr ⟨?_, ?_⟩
          · show a + n = a + n - 1 + 1
            omega
          · exact ih (a + n) htl

/-- C1: for a file strictly above the resumable threshold, the Content-Range
bounds of the successive chunk PUTs start at 0, are contiguous with no gaps
or overlaps (each next start is the previous end plus one), the final upper
bound is S−1, and each emitted header is `bytes <start>-<end>/S` for its
range. -/
theorem C1_chunk_accounting (S : Nat) (h : RESUMABLE_THRESHOLD < S) :
    (chunk_ranges S).head?.map Prod.fst = some 0 ∧
    List.Chain' (fun p q : Nat × Nat => q.1 = p.2 + 1) (chunk_ranges S) ∧
    (chunk_ranges S).getLast?.map Prod.snd = some (S - 1) ∧
    chunk_headers S =
      (chunk_ranges S).map (fun p => content_range_header p.1 p.2 S) := by
  have hC : 0 < CHUNK_SIZE := by decide
  have hS : 0 < S := lt_of_le_of_lt (Nat.zero_le _) h
  have hsum : (read_chunk_sizes CHUNK_SIZE S S).sum = S :=
    read_chunk_sizes_sum CHUNK_SIZE hC S S le_rfl
  have hpos : ∀ n ∈ read_chunk_sizes CHUNK_SIZE S S, 0 < n :=
    fun n hn => read_chunk_sizes_pos CHUNK_SIZE S S n hn
  have hne : read_chunk_sizes CHUNK_SIZE S S ≠ [] :=
    read_chunk_sizes_ne_nil CHUNK_SIZE hC S S hS le_rfl
  refine ⟨?_, ?_, ?_, rfl⟩
  · obtain ⟨n, rest, hns⟩ := List.exists_cons_of_ne_nil hne
    simp [chunk_ranges, read_chunks, hns, with_starts]
  · rw [chunk_ranges, List.chain'_map]
    exact with_starts_ranges_chain (read_chunk_sizes CHUNK_SIZE S S) 0 hpos
  · rw [chunk_ranges, read_chunks]
    obtain ⟨p, hp, hsump⟩ :=
      with_starts_last (read_chunk_sizes CHUNK_SIZE S S) 0 hne
    rw [List.getLast?_map, hp]
    have hps : p.1 + p.2 = S := by rw [hsump, hsum]; omega
    simp [hps]

/-- Witness for C1 at the concrete size threshold+1 (52428801 bytes, seven
chunks of the fixed 8 MB chunk size). -/
theorem C1_chunk_accounting_witness :
    RESUMABLE_THRESHOLD < 52428801 ∧
    ((chunk_ranges 52428801).head?.map Prod.fst = some 0 ∧
     List.Chain' (fun p q : Nat × Nat => q.1 = p.2 + 1) (chunk_ranges 52428801) ∧
     (chunk_ranges 52428801).getLast?.map Prod.snd = some (52428801 - 1) ∧
     chunk_headers 52428801 =
       (chunk_ranges 52428801).map
         (fun p => content_range_header p.1 p.2 52428801)) :=
  ⟨by decide, C1_chunk_accounting 52428801 (by decide)⟩

/-! ## The chunk-loop protocol and progress traces -/

/-- The server's answer to one chunk PUT: HTTP status, raw body text, and
the body parsed as `FileMetadata` when that parse succeeds (models
`chunk_response.json()`). -/
structure ChunkResponse where
  status : Nat
  body : String
  json : Option FileMetadata

/-- One run of the chunk loop: the Content-Range headers of the PUTs it
issued in order, the progress notifications it emitted in order, and its
result. -/
structure UploadTrace where
  headers : List String
  events : List TransferProgress
  result : Except DriveError FileMetadata

/-- `client.rs` lines 424-504: the chunk loop of `upload_resumable`,
processing the reader's `(bytes_uploaded, bytes_read)` chunks against the
oracle `resp` (response to the `idx`-th PUT).  `speed` is the
elapsed-time-derived throughput at each PUT, left abstract since wall-clock
time is outside the model.  A 308 advances the counter, emits progress and
continues; any other 2xx emits the 100% notification and returns the parsed
metadata (a body that fails to parse is the `?` on `json()`); any other
status aborts at once with an `ApiError` carrying status and body; an
exhausted reader without a terminal success is the protocol-violation
error of lines 501-504. -/
def process_chunks (S : Nat) (resp : Nat → ChunkResponse) (speed : Nat → ℚ) :
    List (Nat × Nat) → Nat → UploadTrace
  | [], _ =>
      ⟨[], [], .error (.ApiError 500 "Upload completed but no final response received")⟩
  | (start, size) :: rest, idx =>
      let hdr := content_range_header start (start + size - 1) S
      let r := resp idx
      if r.status = 308 then
        let t := process_chunks S resp speed rest (idx + 1)
        ⟨hdr :: t.headers, ⟨start + size, S, speed idx⟩ :: t.events, t.result⟩
      else if isSuccessStatus r.status then
        match r.json with
        | some m => ⟨[hdr], [⟨S, S, speed idx⟩], .ok m⟩
        | none => ⟨[hdr], [⟨S, S, speed idx⟩], .error .ParseError⟩
      else
        ⟨[hdr], [], .error (.ApiError r.status r.body)⟩

/-- The whole `upload_resumable` chunk phase for a file of `S` bytes: the
reader yields the 8 MB chunks of `read_chunks`. -/
def upload_resumable_run (S : Nat) (resp : Nat → ChunkResponse)
    (speed : Nat → ℚ) : UploadTrace :=
  process_chunks S resp speed (read_chunks S) 0

/-- C2: in the chunk loop, a 308 advances the uploaded-byte counter by the
chunk length and continues with the next chunk; any other 2xx terminates
the loop successfully with the parsed metadata, issuing no further PUTs;
any other status aborts immediately with an API error carrying that status
and body, with no retry of the failed chunk; and an exhausted reader
without a terminal success fails with the protocol-violation error instead
of succeeding. -/
theorem C2_chunk_loop (S : Nat) (resp : Nat → ChunkResponse) (speed : Nat → ℚ)
    (start size idx : Nat) (rest : List (Nat × Nat)) :
    (process_chunks S resp speed [] idx =
      ⟨[], [], .error (.ApiError 500 "Upload completed but no final response received")⟩) ∧
    ((resp idx).status = 308 →
      process_chunks S resp speed ((start, size) :: rest) idx =
        ⟨content_range_header start (start + size - 1) S ::
            (process_chunks S resp speed rest (idx + 1)).headers,
         ⟨start + size, S, speed idx⟩ ::
            (process_chunks S resp speed rest (idx + 1)).events,
         (process_chunks S resp speed rest (idx + 1)).result⟩) ∧
    (∀ m, (resp idx).status ≠ 308 → isSuccessStatus (resp idx).status = true →
      (resp idx).json = some m →
      process_chunks S resp speed ((start, size) :: rest) idx =
        ⟨[content_range_header start (start + size - 1) S],
         [⟨S, S, speed idx⟩], .ok m⟩) ∧
    ((resp idx).status ≠ 308 → isSuccessStatus (resp idx).status = false →
      process_chunks S resp speed ((start, size) :: rest) idx =
        ⟨[content_range_header start (start + size - 1) S],
         [], .error (.ApiError (resp idx).status (resp idx).body)⟩) := by
  refine ⟨rfl, fun h => ?_, fun m h1 h2 h3 => ?_, fun h1 h2 => ?_⟩
  · simp [process_chunks, h]
  · simp [process_chunks, h1, h2, h3]
  · simp [process_chunks, h1, h2]

/-- Witness for C2 at concrete inputs: a server that answers 308 to PUT 0,
200 with metadata to PUT 1, and 403 to PUT 2, exercises the continue,
terminal-success, abort and exhausted-reader clauses. -/
theorem C2_chunk_loop_witness :
    (process_chunks 10
        (fun i => if i = 0 then ⟨308, "", none⟩
          else if i = 1 then ⟨200, "", some ⟨"f", "f.bin", none, none, some 10⟩⟩
          else ⟨403, "denied", none⟩)
        (fun _ => 0) [] 5 =
      ⟨[], [], .error (.ApiError 500 "Upload completed but no final response received")⟩) ∧
    (process_chunks 10
        (fun i => if i = 0 then ⟨308, "", none⟩
          else if i = 1 then ⟨200, "", some ⟨"f", "f.bin", none, none, some 10⟩⟩
          else ⟨403, "denied", none⟩)
        (fun _ => 0) [(0, 6), (6, 4)] 0 =
      ⟨[content_range_header 0 5 10, content_range_header 6 9 10],
       [⟨6, 10, 0⟩, ⟨10, 10, 0⟩],
       .ok ⟨"f", "f.bin", none, none, some 10⟩⟩) ∧
    (process_chunks 10
        (fun i => if i = 0 then ⟨308, "", none⟩
          else if i = 1 then ⟨200, "", some ⟨"f", "f.bin", none, none, some 10⟩⟩
          else ⟨403, "denied", none⟩)
        (fun _ => 0) [(0, 6), (6, 4)] 2 =
      ⟨[content_range_header 0 5 10], [], .error (.ApiError 403 "denied")⟩) := by
  refine ⟨(C2_chunk_loop 10 _ _ 0 0 5 []).1, ?_, ?_⟩
  · have h308 := (C2_chunk_loop 10
      (fun i => if i = 0 then ⟨308, "", none⟩
        else if i = 1 then ⟨200, "", some ⟨"f", "f.bin", none, none, some 10⟩⟩
        else ⟨403, "denied", none⟩)
      (fun _ => 0) 0 6 0 [(6, 4)]).2.1 rfl
    have h200 := (C2_chunk_loop 10
      (fun i => if i = 0 then ⟨308, "", none⟩
        else if i = 1 then ⟨200, "", some ⟨"f", "f.bin", none, none, some 10⟩⟩
        else ⟨403, "denied", none⟩)
      (fun _ => 0) 6 4 1 []).2.2.1 ⟨"f", "f.bin", none, none, some 10⟩
      (by decide) (by decide) rfl
    rw [h308, h200]
  · exact (C2_chunk_loop 10
      (fun i => if i = 0 then ⟨308, "", none⟩
        else if i = 1 then ⟨200, "", some ⟨"f", "f.bin", none, none, some 10⟩⟩
        else ⟨403, "denied", none⟩)
      (fun _ => 0) 0 6 2 [(6, 4)]).2.2.2 (by decide) (by decide)

/-- `client.rs` lines 570-599, `download_file_with_progress` streaming loop:
one progress notification per received buffer, with the running byte count
after writing that buffer.  `total` is `metadata.size.unwrap_or(0)` fetched
before the download; `ns` are the received buffer lengths in order; `acc`
is the `bytes_downloaded` counter and `idx` the buffer index (for the
abstracted elapsed-time-derived `speed`). -/
def download_events (total : Nat) (speed : Nat → ℚ) :
    Nat → Nat → List Nat → List TransferProgress
  | _, _, [] => []
  | acc, idx, n :: ns =>
      ⟨acc + n, total, speed idx⟩ :: download_events total speed (acc + n) (idx + 1) ns

/-- The notifications of one whole download of buffers `chunks`. -/
def download_run (total : Nat) (chunks : List Nat) (speed : Nat → ℚ) :
    List TransferProgress :=
  download_events total speed 0 0 chunks

/-- Dropping the head of a nonempty-tailed cons keeps the last element. -/
theorem getLast?_cons_of_ne_nil {α : Type} (a : α) (l : List α) (h : l ≠ []) :
    (a :: l).getLast? = l.getLast? := by
  cases l with
  | nil => exact absurd rfl h
  | cons b t => exact List.getLast?_cons_cons

/-- Upload-loop events are bounded between the starting counter and the file
size, and are non-decreasing. -/
theorem process_chunks_events_bounded (S : Nat) (resp : Nat → ChunkResponse)
    (speed : Nat → ℚ) (ns : List Nat) :
    ∀ a idx, a + ns.sum ≤ S →
      (∀ e ∈ (process_chunks S resp speed (with_starts a ns) idx).events,
        a ≤ e.bytes_transferred ∧ e.bytes_transferred ≤ S) ∧
      List.Chain' (fun p q => p.bytes_transferred ≤ q.bytes_transferred)
        (process_chunks S resp speed (with_starts a ns) idx).events := by
  induction ns with
  | nil => intro a idx _; simp [with_starts, process_chunks]
  | cons n ns ih =>
      intro a idx h
      rw [List.sum_cons] at h
      have hsum : a + n + ns.sum ≤ S := by omega
      have han : a + n ≤ S := by omega
      have haS : a ≤ S := by omega
      rw [show with_starts a (n :: ns) = (a, n) :: with_starts (a + n) ns from rfl]
      by_cases h308 : (resp idx).status = 308
      · obtain ⟨ihmem, ihchain⟩ := ih (a + n) (idx + 1) hsum
        simp only [process_chunks, h308, if_true, reduceIte]
        constructor
        · intro e he
          rcases List.mem_cons.mp he with he | he
          · subst he; exact ⟨Nat.le_add_right a n, han⟩
          · obtain ⟨h1, h2⟩ := ihmem e he
            exact ⟨le_trans (Nat.le_add_right a n) h1, h2⟩
        · refine List.chain'_cons'.mpr ⟨?_, ihchain⟩
          intro q hq
          have hmem : q ∈ (process_chunks S resp speed
              (with_starts (a + n) ns) (idx + 1)).events :=
            List.mem_of_mem_head? hq
          exact (ihmem q hmem).1
      · by_cases hok : isSuccessStatus (resp idx).status
        · rcases hj : (resp idx).json with _ | m <;>
            simp [process_chunks, h308, hok, hj, haS]
        · simp [process_chunks, h308, hok]

/-- A successful upload-loop run ends with the 100% notification: last event
has `bytes_transferred = total_bytes = S`. -/
theorem process_chunks_final (S : Nat) (resp : Nat → ChunkResponse)
    (speed : Nat → ℚ) (ns : List Nat) :
    ∀ a idx m,
      (process_chunks S resp speed (with_starts a ns) idx).result = .ok m →
      ∃ q, (process_chunks S resp speed (with_starts a ns) idx).events.getLast? =
            some q ∧ q.bytes_transferred = S ∧ q.total_bytes = S := by
  induction ns with
  | nil =>
      intro a idx m hres
      simp [with_starts, process_chunks] at hres
  | cons n ns ih =>
      intro a idx m hres
      rw [show with_starts a (n :: ns) = (a, n) :: with_starts (a + n) ns from rfl]
        at hres ⊢
      by_cases h308 : (resp idx).status = 308
      · simp only [process_chunks, h308, if_true, reduceIte] at hres ⊢
        obtain ⟨q, hq, hqb, hqt⟩ := ih (a + n) (idx + 1) m hres
        have hne : (process_chunks S resp speed
            (with_starts (a + n) ns) (idx + 1)).events ≠ [] := by
          intro hnil
          rw [hnil] at hq
          exact Option.noConfusion hq
        exact ⟨q, by rw [getLast?_cons_of_ne_nil _ _ hne]; exact hq, hqb, hqt⟩
      · by_cases hok : isSuccessStatus (resp idx).status
        · rcases hj : (resp idx).json with _ | m2
          · simp [process_chunks, h308, hok, hj] at hres
          · refine ⟨⟨S, S, speed idx⟩, ?_, rfl, rfl⟩
            simp [process_chunks, h308, hok, hj]
        · simp [process_chunks, h308, hok] at hres

/-- Download events are bounded below by the starting counter and
non-decreasing. -/
theorem download_events_bounded (total : Nat) (speed : Nat → ℚ) (ns : List Nat) :
    ∀ acc idx,
      (∀ e ∈ download_events total speed acc idx ns, acc ≤ e.bytes_transferred) ∧
      List.Chain' (fun p q => p.bytes_transferred ≤ q.bytes_transferred)
        (download_events total speed acc idx ns) := by
  induction ns with
  | nil => intro acc idx; simp [download_events]
  | cons n ns ih =>
      intro acc idx
      obtain ⟨ihmem, ihchain⟩ := ih (acc + n) (idx + 1)
      simp only [download_events]
      constructor
      · intro e he
        rcases List.mem_cons.mp he with he | he
        · subst he; exact Nat.le_add_right acc n
        · exact le_trans (Nat.le_add_right acc n) (ihmem e he)
      · refine List.chain'_cons'.mpr ⟨?_, ihchain⟩
        intro q hq
        exact ihmem q (List.mem_of_mem_head? hq)

/-- The last download event carries the sum of all received buffer
lengths added to the starting counter. -/
theorem download_events_last (total : Nat) (speed : Nat → ℚ) (ns : List Nat) :
    ∀ acc idx, ns ≠ [] →
      (download_events total speed acc idx ns).getLast?.map
        (fun p => p.bytes_transferred) = some (acc + ns.sum) := by
  induction ns with
  | nil => intro acc idx h; exact absurd rfl h
  | cons n ns ih =>
      intro acc idx _
      cases ns with
      | nil => simp [download_events]
      | cons m ns2 =>
          have hne2 : download_events total speed (acc + n) (idx + 1) (m :: ns2) ≠ [] := by
            simp [download_events]
          have hrec := ih (acc + n) (idx + 1) (by simp)
          rw [show download_events total speed acc idx (n :: m :: ns2) =
              ⟨acc + n, total, speed idx⟩ ::
                download_events total speed (acc + n) (idx + 1) (m :: ns2) from rfl]
          rw [getLast?_cons_of_ne_nil _ _ hne2, hrec]
          simp only [List.sum_cons, Option.some.injEq]
          omega

/-- C6 counterexample: a download whose metadata records 10 bytes but whose
response body delivers only 5 emits a final notification of 5 bytes, not
`total_bytes` — the claim's final-equals-total clause fails as stated. -/
theorem C6_counterexample :
    download_run 10 [5] (fun _ => 0) ≠ [] ∧
    (download_run 10 [5] (fun _ => 0)).getLast?.map
      (fun p => p.bytes_transferred) ≠ some 10 := by
  refine ⟨?_, ?_⟩ <;> decide

/-- C6 amended: upload and download notifications are non-decreasing in
`bytes_transferred`; a successfully completing upload ends with a
notification equal to `total_bytes`; a download's final notification equals
the number of bytes actually received, which equals `total_bytes` exactly
when the response body delivers `total_bytes` bytes. -/
theorem C6_progress_monotone (S total : Nat) (resp : Nat → ChunkResponse)
    (speedU speedD : Nat → ℚ) (chunks : List Nat) (m : FileMetadata) :
    List.Chain' (fun p q => p.bytes_transferred ≤ q.bytes_transferred)
      (upload_resumable_run S resp speedU).events ∧
    ((upload_resumable_run S resp speedU).result = .ok m →
      ∃ q, (upload_resumable_run S resp speedU).events.getLast? = some q ∧
        q.bytes_transferred = S ∧ q.total_bytes = S) ∧
    List.Chain' (fun p q => p.bytes_transferred ≤ q.bytes_transferred)
      (download_run total chunks speedD) ∧
    (chunks ≠ [] →
      (download_run total chunks speedD).getLast?.map
        (fun p => p.bytes_transferred) = some chunks.sum) ∧
    (chunks ≠ [] → chunks.sum = total →
      (download_run total chunks speedD).getLast?.map
        (fun p => p.bytes_transferred) = some total) := by
  have hC : 0 < CHUNK_SIZE := by decide
  have hsum : (read_chunk_sizes CHUNK_SIZE S S).sum = S :=
    read_chunk_sizes_sum CHUNK_SIZE hC S S le_rfl
  have hle : 0 + (read_chunk_sizes CHUNK_SIZE S S).sum ≤ S := by omega
  refine ⟨?_, ?_, ?_, ?_, ?_⟩
  · exact (process_chunks_events_bounded S resp speedU
      (read_chunk_sizes CHUNK_SIZE S S) 0 0 hle).2
  · intro hres
    exact process_chunks_final S resp speedU
      (read_chunk_sizes CHUNK_SIZE S S) 0 0 m hres
  · exact (download_events_bounded total speedD chunks 0 0).2
  · intro hne
    simpa using download_events_last total speedD chunks 0 0 hne
  · intro hne heq
    have h := download_events_last total speedD chunks 0 0 hne
    rw [heq] at h
    simpa using h

/-- Witness for C6 at concrete inputs: a one-chunk 10-byte upload the server
completes with 200, and a download of buffers 3 and 4 against a metadata
size of 7. -/
theorem C6_progress_monotone_witness :
    List.Chain' (fun p q => p.bytes_transferred ≤ q.bytes_transferred)
      (upload_resumable_run 10
        (fun _ => ⟨200, "", some ⟨"f", "f.bin", none, none, some 10⟩⟩)
        (fun _ => 0)).events ∧
    (∃ q, (upload_resumable_run 10
        (fun _ => ⟨200, "", some ⟨"f", "f.bin", none, none, some 10⟩⟩)
        (fun _ => 0)).events.getLast? = some q ∧
      q.bytes_transferred = 10 ∧ q.total_bytes = 10) ∧
    List.Chain' (fun p q => p.bytes_transferred ≤ q.bytes_transferred)
      (download_run 7 [3, 4] (fun _ => 0)) ∧
    (download_run 7 [3, 4] (fun _ => 0)).getLast?.map
      (fun p => p.bytes_transferred) = some 7 := by
  refine ⟨(C6_progress_monotone 10 7
      (fun _ => ⟨200, "", some ⟨"f", "f.bin", none, none, some 10⟩⟩)
      (fun _ => 0) (fun _ => 0) [3, 4]
      ⟨"f", "f.bin", none, none, some 10⟩).1,
    (C6_progress_monotone 10 7
      (fun _ => ⟨200, "", some ⟨"f", "f.bin", none, none, some 10⟩⟩)
      (fun _ => 0) (fun _ => 0) [3, 4]
      ⟨"f", "f.bin", none, none, some 10⟩).2.1 rfl,
    (C6_progress_monotone 10 7
      (fun _ => ⟨200, "", some ⟨"f", "f.bin", none, none, some 10⟩⟩)
      (fun _ => 0) (fun _ => 0) [3, 4]
      ⟨"f", "f.bin", none, none, some 10⟩).2.2.1,
    (C6_progress_monotone 10 7
      (fun _ => ⟨200, "", some ⟨"f", "f.bin", none, none, some 10⟩⟩)
      (fun _ => 0) (fun _ => 0) [3, 4]
      ⟨"f", "f.bin", none, none, some 10⟩).2.2.2.2 (by simp) rfl⟩

end ShareDrive
